import Mathlib

/-!
Shallow embedding of the dependency-injection runtime in `src/lib.rs` of the
`rust_di` repository, together with proofs about its registration and
resolution behaviour.

Modelling conventions:
- `TypeId` is modelled as a `Nat`; an instance name is a `String`; a
  `ServiceKey` is the pair `(TypeId, name)`, exactly as in the source.
- An `Arc<TokioRwLock<dyn AnyService>>` holder is modelled as a `Holder`
  carrying a `Nat` allocation identifier (pointer identity of the `Arc`: two
  holders are the same allocation iff their `id`s are equal) and the `Nat`
  type identity (`tag`) of the concrete service value stored inside it.
- A registered constructor (the `wrapped_factory` closure built in
  `register_factory`) is modelled as a `Factory`: the ordered list of keys the
  constructor itself resolves through the scope it is handed, plus the type
  identity of the value it produces.  Invoking a factory resolves its
  dependencies in order and then allocates a fresh holder, drawing the fresh
  identifier from a global allocation counter (which also plays the role of
  the "global counter" of the spec's transient scenario).
- The global registries (`REGISTERED_SINGLETON_INSTANCES`,
  `REGISTERED_SCOPE_FACTORIES`, `REGISTERED_TRANSIENT_FACTORIES`), the current
  scope's `scoped_instances` map, and the `RESOLVING_STACK` task-local are
  gathered into one explicit state record `ResState`.  The `stack` field is an
  `Option`: `none` models a task with no `RESOLVING_STACK` task-local (no
  active scope), in which case `RESOLVING_STACK.try_with` fails with an
  `AccessError` that the source maps onto `DiError::FactoryError`.
- Asynchronous execution is sequentialised: a single resolution call chain is
  modelled as a recursive function on the state, with a fuel parameter; `none`
  as the overall result means the chain did not finish within the given fuel
  (for every fuel), i.e. the source recursion is unbounded.
-/

namespace RustDi

instance {ε α : Type} [DecidableEq ε] [DecidableEq α] : DecidableEq (Except ε α) := fun a b =>
  match a, b with
  | .error e, .error e' =>
    if h : e = e' then isTrue (by rw [h]) else isFalse (by intro hc; cases hc; exact h rfl)
  | .error _, .ok _ => isFalse (by intro hc; cases hc)
  | .ok _, .error _ => isFalse (by intro hc; cases hc)
  | .ok a', .ok b' =>
    if h : a' = b' then isTrue (by rw [h]) else isFalse (by intro hc; cases hc; exact h rfl)

/-- A service key, `(TypeId, String)` in the source. -/
abbrev Key := Nat × String

/-- A type-erased service holder: `Arc<TokioRwLock<dyn AnyService>>`.  `id` is
the identity of the `Arc` allocation, `tag` the runtime type identity of the
wrapped concrete value. -/
structure Holder where
  id : Nat
  tag : Nat
  deriving DecidableEq

/-- A registered constructor as wrapped by `register_factory`: the keys it
resolves through the scope passed to it, in order, and the type identity of
the service value it produces. -/
structure Factory where
  deps : List Key
  tag : Nat
  deriving DecidableEq

/-- The error type `DiError` of the source.  `factoryError` stands for
`DiError::FactoryError(_)`, whose boxed payload is not modelled; it is the
variant produced both when no `RESOLVING_STACK` task-local exists and when
`DIScope::current` finds no ambient scope. -/
inductive DiError where
  | serviceNotFound (ty : Nat) (name : String)
  | serviceAlreadyRegistered (ty : Nat) (name : String)
  | lockPoisoned
  | factoryError
  | circularDependency (ty : Nat) (name : String)
  deriving DecidableEq

/-- First-match lookup in an association list, modelling `DashMap::get` /
`contains_key` on a map keyed by `(TypeId, String)`. -/
def find? {β : Type} (k : Key) : List (Key × β) → Option β
  | [] => none
  | (k', v) :: rest => if k' = k then some v else find? k rest

/-- Insert-or-overwrite, modelling `DashMap::insert`. -/
def insertOv {β : Type} (k : Key) (v : β) : List (Key × β) → List (Key × β)
  | [] => [(k, v)]
  | (k', v') :: rest => if k' = k then (k, v) :: rest else (k', v') :: insertOv k v rest

/-- The state a resolution call chain runs over: the three global registries,
the current scope's `scoped_instances` cache, the `RESOLVING_STACK` task-local
(`none` when the task-local is absent, i.e. outside `run_with_scope`), and the
allocation counter supplying fresh holder identities. -/
structure ResState where
  singletons : List (Key × Holder)
  scopeFactories : List (Key × Factory)
  transientFactories : List (Key × Factory)
  scopedInstances : List (Key × Holder)
  stack : Option (List Nat)
  counter : Nat
  deriving DecidableEq

/-- Registration helper `register_factory`: fail with
`ServiceAlreadyRegistered` when the key is already in this registry's current
snapshot, otherwise store a snapshot extended with the wrapped factory. -/
def register_factory (ty : Nat) (name : String) (deps : List Key)
    (registry : List (Key × Factory)) : Except DiError (List (Key × Factory)) :=
  if (find? (ty, name) registry).isSome then
    .error (.serviceAlreadyRegistered ty name)
  else
    .ok (registry ++ [((ty, name), ⟨deps, ty⟩)])

/-- The source's `register_transient_name`. -/
def register_transient_name (ty : Nat) (name : String) (deps : List Key)
    (st : ResState) : Except DiError ResState :=
  (register_factory ty name deps st.transientFactories).map
    fun r => { st with transientFactories := r }

/-- The source's `register_transient`: registers under the empty name. -/
def register_transient (ty : Nat) (deps : List Key) (st : ResState) :
    Except DiError ResState :=
  register_transient_name ty "" deps st

/-- The source's `register_scope_name`. -/
def register_scope_name (ty : Nat) (name : String) (deps : List Key)
    (st : ResState) : Except DiError ResState :=
  (register_factory ty name deps st.scopeFactories).map
    fun r => { st with scopeFactories := r }

/-- The source's `register_scope`: registers under the empty name. -/
def register_scope (ty : Nat) (deps : List Key) (st : ResState) :
    Except DiError ResState :=
  register_scope_name ty "" deps st

/-- The source's `register_singleton_name`: the caller passes an already
constructed instance; on success a fresh holder wrapping it is created *now*
and stored in the singleton map.  Fails with `ServiceAlreadyRegistered` when
the key is already present in the singleton map. -/
def register_singleton_name (ty : Nat) (name : String) (st : ResState) :
    Except DiError ResState :=
  if (find? (ty, name) st.singletons).isSome then
    .error (.serviceAlreadyRegistered ty name)
  else
    .ok { st with
      singletons := st.singletons ++ [((ty, name), ⟨st.counter, ty⟩)],
      counter := st.counter + 1 }

/-- The source's `register_singleton`: registers under the empty name. -/
def register_singleton (ty : Nat) (st : ResState) : Except DiError ResState :=
  register_singleton_name ty "" st

/-- The test-only full reset (`reset_global_di_state` /
`reset_global_di_state_for_tests`): clears the three global registries and the
global counters; the scope-local cache and the task-local stack are not
touched. -/
def reset_global_di_state (st : ResState) : ResState :=
  { st with singletons := [], scopeFactories := [], transientFactories := [], counter := 0 }

/-- The body of the first `RESOLVING_STACK.try_with` closure in `by_name`:
push the type identity unless it is already in flight.  (When it is already in
flight the closure instead returns `Err(CircularDependency)` — but the source
binds that inner `Result` to `let _ = ...` and so discards it; only the push
side effect is modelled here, the discarded error is noted at the use site.) -/
def pushTy (ty : Nat) (stk : List Nat) : List Nat :=
  if ty ∈ stk then stk else stk ++ [ty]

/-- The second `RESOLVING_STACK.try_with` closure: `Vec::pop` on the stack,
unconditionally, on every exit path of the lookup. -/
def popStack (st : ResState) : ResState :=
  { st with stack := st.stack.map List.dropLast }

/-- Run a factory's dependency resolutions in order, threading the state and
propagating the first error; `none` means a nested resolution ran out of
fuel. -/
def runDeps (resolve : Nat → String → ResState → Option (ResState × Except DiError Holder)) :
    List Key → ResState → Option (ResState × Except DiError Unit)
  | [], st => some (st, .ok ())
  | (t, nm) :: rest, st =>
    match resolve t nm st with
    | none => none
    | some (st', .error e) => some (st', .error e)
    | some (st', .ok _) => runDeps resolve rest st'

/-- The source's `DIScope::by_name`, fuel-indexed (the overall result `none`
means the call chain did not complete within `fuel` nested resolutions).

Faithful points worth noting, in source order:
- if the `RESOLVING_STACK` task-local is absent (`stack = none`), the mapped
  `AccessError` (`DiError::FactoryError`) is propagated by `?` before any
  lookup and before the pop;
- the first `try_with` closure detects a circular dependency when the type
  identity is already on the stack and builds `DiError::CircularDependency` —
  but the source discards this inner `Result` (`let _ = ...?;` only propagates
  the outer `AccessError`), so the lookup proceeds regardless, with the stack
  left unchanged (`pushTy`);
- lookup order: singleton map, then the scope's `scoped_instances`, then the
  scope factories (constructing and caching), then the transient factories
  (constructing, not caching), else `ServiceNotFound`;
- the stack is popped (`popStack`) on every exit path of the lookup. -/
def by_name : Nat → Nat → String → ResState → Option (ResState × Except DiError Holder)
  | 0, _, _, _ => none
  | fuel + 1, ty, name, st =>
    match st.stack with
    | none => some (st, .error .factoryError)
    | some stk =>
      let st1 : ResState := { st with stack := some (pushTy ty stk) }
      match find? (ty, name) st.singletons with
      | some h => some (popStack st1, .ok h)
      | none =>
        match find? (ty, name) st.scopedInstances with
        | some h => some (popStack st1, .ok h)
        | none =>
          match find? (ty, name) st.scopeFactories with
          | some f =>
            match runDeps (by_name fuel) f.deps st1 with
            | none => none
            | some (st2, .error e) => some (popStack st2, .error e)
            | some (st2, .ok _) =>
              some (popStack { st2 with
                      counter := st2.counter + 1,
                      scopedInstances :=
                        insertOv (ty, name) ⟨st2.counter, f.tag⟩ st2.scopedInstances },
                    .ok ⟨st2.counter, f.tag⟩)
          | none =>
            match find? (ty, name) st.transientFactories with
            | some f =>
              match runDeps (by_name fuel) f.deps st1 with
              | none => none
              | some (st2, .error e) => some (popStack st2, .error e)
              | some (st2, .ok _) =>
                some (popStack { st2 with counter := st2.counter + 1 },
                      .ok ⟨st2.counter, f.tag⟩)
            | none => some (popStack st1, .error (.serviceNotFound ty name))

/-- The source's `DIScope::get::<T>()`: exactly `by_name::<T>("")`. -/
def DIScope_get (fuel ty : Nat) (st : ResState) :
    Option (ResState × Except DiError Holder) :=
  by_name fuel ty "" st

/-- A typed handle `Arc<TokioRwLock<T>>` as produced by the type-erasure
boundary: the type the caller requested plus the underlying allocation. -/
structure TypedHandle where
  ty : Nat
  id : Nat
  deriving DecidableEq

/-- The type-erasure conversion at the end of `by_name`
(`Arc::into_raw` / `.cast()` / `Arc::from_raw`): an unchecked cast that
reinterprets the holder's allocation at the requested type, with no runtime
check of the stored value's type tag and no error path. -/
def cast_holder (ty : Nat) (h : Holder) : TypedHandle :=
  ⟨ty, h.id⟩

/-- The full `by_name` including the final unchecked conversion of the
type-erased holder to a typed handle. -/
def by_name_typed (fuel ty : Nat) (name : String) (st : ResState) :
    Option (ResState × Except DiError TypedHandle) :=
  match by_name fuel ty name st with
  | none => none
  | some (st', .error e) => some (st', .error e)
  | some (st', .ok h) => some (st', .ok (cast_holder ty h))

/-- The source's `DIScope::current`: read the `CURRENT_DI_SCOPE` task-local
(modelled by an `Option` holding the ambient scope's cache); absent it fails
with `DiError::FactoryError` ("No DI scope found in this task"). -/
def DIScope_current (ctx : Option (List (Key × Holder))) :
    Except DiError (List (Key × Holder)) :=
  match ctx with
  | none => .error .factoryError
  | some s => .ok s

/-- Modelled from the spec: the resolver as §4.4/§4.5 describe it, identical to
`by_name` except that the Cycle Guard's `enter` *aborts* the resolution with
`CircularDependency(name)` when the type identity is already in flight (the
early return happens before the push and before the pop, matching the `?` on
the first `try_with`).  This is the behaviour the source's discarded inner
`Result` was evidently meant to produce. -/
def by_name_guarded : Nat → Nat → String → ResState → Option (ResState × Except DiError Holder)
  | 0, _, _, _ => none
  | fuel + 1, ty, name, st =>
    match st.stack with
    | none => some (st, .error .factoryError)
    | some stk =>
      if ty ∈ stk then some (st, .error (.circularDependency ty name))
      else
        let st1 : ResState := { st with stack := some (stk ++ [ty]) }
        match find? (ty, name) st.singletons with
        | some h => some (popStack st1, .ok h)
        | none =>
          match find? (ty, name) st.scopedInstances with
          | some h => some (popStack st1, .ok h)
          | none =>
            match find? (ty, name) st.scopeFactories with
            | some f =>
              match runDeps (by_name_guarded fuel) f.deps st1 with
              | none => none
              | some (st2, .error e) => some (popStack st2, .error e)
              | some (st2, .ok _) =>
                some (popStack { st2 with
                        counter := st2.counter + 1,
                        scopedInstances :=
                          insertOv (ty, name) ⟨st2.counter, f.tag⟩ st2.scopedInstances },
                      .ok ⟨st2.counter, f.tag⟩)
            | none =>
              match find? (ty, name) st.transientFactories with
              | some f =>
                match runDeps (by_name_guarded fuel) f.deps st1 with
                | none => none
                | some (st2, .error e) => some (popStack st2, .error e)
                | some (st2, .ok _) =>
                  some (popStack { st2 with counter := st2.counter + 1 },
                        .ok ⟨st2.counter, f.tag⟩)
              | none => some (popStack st1, .error (.serviceNotFound ty name))

/-- A state with two mutually dependent scope-registered services: type `0`'s
constructor resolves `(1, "")` and type `1`'s constructor resolves `(0, "")`,
inside an active scope with an empty resolving stack. -/
def cyc0 : ResState :=
  ⟨[], [((0, ""), ⟨[(1, "")], 0⟩), ((1, ""), ⟨[(0, "")], 1⟩)], [], [], some [], 0⟩

/-- The cyclic state as seen while type `0` is in flight. -/
def cycA : ResState :=
  ⟨[], [((0, ""), ⟨[(1, "")], 0⟩), ((1, ""), ⟨[(0, "")], 1⟩)], [], [], some [0], 0⟩

/-- The cyclic state as seen while types `0` and `1` are both in flight. -/
def cycAB : ResState :=
  ⟨[], [((0, ""), ⟨[(1, "")], 0⟩), ((1, ""), ⟨[(0, "")], 1⟩)], [], [], some [0, 1], 0⟩

/-- States reachable from a state while staying inside one and the same scope:
any finite sequence of resolutions and registrations, threading the same
scope's cache (registrations touch only the global registries and resolutions
thread the scope's state, exactly as a task inside one `run_with_scope` body
can interleave them). -/
inductive ReachesInScope : ResState → ResState → Prop where
  | refl (s : ResState) : ReachesInScope s s
  | resolve {s s' s'' : ResState} (fuel ty : Nat) (name : String)
      (r : Except DiError Holder) :
      by_name fuel ty name s = some (s', r) → ReachesInScope s' s'' →
      ReachesInScope s s''
  | registerTransient {s s' s'' : ResState} (ty : Nat) (name : String) (deps : List Key) :
      register_transient_name ty name deps s = .ok s' → ReachesInScope s' s'' →
      ReachesInScope s s''
  | registerScope {s s' s'' : ResState} (ty : Nat) (name : String) (deps : List Key) :
      register_scope_name ty name deps s = .ok s' → ReachesInScope s' s'' →
      ReachesInScope s s''
  | registerSingleton {s s' s'' : ResState} (ty : Nat) (name : String) :
      register_singleton_name ty name s = .ok s' → ReachesInScope s' s'' →
      ReachesInScope s s''

/-- States reachable from a state across the whole process: the same steps as
`ReachesInScope`, plus entering a fresh scope (`DIScope::run_with_scope`
creates a new `DIScope` with an empty `scoped_instances` cache and installs a
fresh empty `RESOLVING_STACK`, over the same global registries), so two
resolutions related by `Reaches` may lie in different scopes and be separated
by arbitrary other resolutions and registrations. -/
inductive Reaches : ResState → ResState → Prop where
  | refl (s : ResState) : Reaches s s
  | resolve {s s' s'' : ResState} (fuel ty : Nat) (name : String)
      (r : Except DiError Holder) :
      by_name fuel ty name s = some (s', r) → Reaches s' s'' → Reaches s s''
  | registerTransient {s s' s'' : ResState} (ty : Nat) (name : String) (deps : List Key) :
      register_transient_name ty name deps s = .ok s' → Reaches s' s'' → Reaches s s''
  | registerScope {s s' s'' : ResState} (ty : Nat) (name : String) (deps : List Key) :
      register_scope_name ty name deps s = .ok s' → Reaches s' s'' → Reaches s s''
  | registerSingleton {s s' s'' : ResState} (ty : Nat) (name : String) :
      register_singleton_name ty name s = .ok s' → Reaches s' s'' → Reaches s s''
  | newScope {s s'' : ResState} :
      Reaches { s with scopedInstances := [], stack := some [] } s'' → Reaches s s''

/-- How one resolution call chain may change the state: the three registries
are untouched, the allocation counter never decreases, and the scoped cache
changes only at keys that have a registered scope factory. -/
def Evolves (s s' : ResState) : Prop :=
  s'.singletons = s.singletons ∧
  s'.scopeFactories = s.scopeFactories ∧
  s'.transientFactories = s.transientFactories ∧
  s.counter ≤ s'.counter ∧
  ∀ k, find? k s'.scopedInstances = find? k s.scopedInstances ∨
       (find? k s.scopeFactories).isSome


/-- Registration type-safety invariant: every holder stored in the singleton
map or a scoped cache, and every factory in either factory registry, carries
the type identity of the key it is stored under.  This is the invariant that
makes the unchecked cast at the end of `by_name` sound. -/
def wellTagged (st : ResState) : Bool :=
  st.singletons.all (fun e => e.2.tag == e.1.1) &&
  st.scopedInstances.all (fun e => e.2.tag == e.1.1) &&
  st.scopeFactories.all (fun e => e.2.tag == e.1.1) &&
  st.transientFactories.all (fun e => e.2.tag == e.1.1)

theorem find?_insertOv_self {β : Type} (k : Key) (v : β) (l : List (Key × β)) :
    find? k (insertOv k v l) = some v := by
  induction l with
  | nil => simp [insertOv, find?]
  | cons e rest ih =>
    obtain ⟨k', v'⟩ := e
    by_cases h : k' = k
    · subst h; simp [insertOv, find?]
    · simp [insertOv, find?, h, ih]

theorem find?_insertOv_ne {β : Type} (k k' : Key) (v : β) (l : List (Key × β))
    (h : k' ≠ k) : find? k' (insertOv k v l) = find? k' l := by
  induction l with
  | nil => simp [insertOv, find?, Ne.symm h]
  | cons e rest ih =>
    obtain ⟨k'', v''⟩ := e
    by_cases h2 : k'' = k
    · subst h2
      simp [insertOv, find?, Ne.symm h]
    · simp only [insertOv, if_neg h2, find?]
      by_cases h3 : k'' = k'
      · simp [h3]
      · simp [h3, ih]

theorem find?_mem {β : Type} (k : Key) (v : β) (l : List (Key × β)) :
    find? k l = some v → (k, v) ∈ l := by
  induction l with
  | nil => intro h; simp [find?] at h
  | cons e rest ih =>
    obtain ⟨k', v'⟩ := e
    intro h
    by_cases h2 : k' = k
    · subst h2
      simp [find?] at h
      simp [h]
    · simp [find?, h2] at h
      exact List.mem_cons_of_mem _ (ih h)

theorem evolves_refl (s : ResState) : Evolves s s :=
  ⟨rfl, rfl, rfl, Nat.le_refl _, fun _ => Or.inl rfl⟩

theorem evolves_trans {a b c : ResState} (h1 : Evolves a b) (h2 : Evolves b c) :
    Evolves a c := by
  obtain ⟨e1, e2, e3, e4, e5⟩ := h1
  obtain ⟨f1, f2, f3, f4, f5⟩ := h2
  refine ⟨f1.trans e1, f2.trans e2, f3.trans e3, Nat.le_trans e4 f4, ?_⟩
  intro k
  rcases f5 k with g | g
  · rcases e5 k with g' | g'
    · exact Or.inl (g.trans g')
    · exact Or.inr g'
  · rw [e2] at g
    exact Or.inr g

theorem evolves_stackChange (st : ResState) (x : Option (List Nat)) :
    Evolves st { st with stack := x } :=
  ⟨rfl, rfl, rfl, Nat.le_refl _, fun _ => Or.inl rfl⟩

theorem evolves_popStack {base st : ResState} (h : Evolves base st) :
    Evolves base (popStack st) := by
  obtain ⟨e1, e2, e3, e4, e5⟩ := h
  exact ⟨e1, e2, e3, e4, e5⟩

theorem evolves_counterBump {base st : ResState} (h : Evolves base st) :
    Evolves base (popStack { st with counter := st.counter + 1 }) := by
  obtain ⟨e1, e2, e3, e4, e5⟩ := h
  exact ⟨e1, e2, e3, Nat.le_trans e4 (Nat.le_succ _), e5⟩

theorem evolves_scopedInsert {base st : ResState} (ty : Nat) (name : String) (h : Holder)
    (hf : (find? (ty, name) base.scopeFactories).isSome)
    (he : Evolves base st) :
    Evolves base (popStack { st with
      counter := st.counter + 1,
      scopedInstances := insertOv (ty, name) h st.scopedInstances }) := by
  obtain ⟨e1, e2, e3, e4, e5⟩ := he
  refine ⟨e1, e2, e3, Nat.le_trans e4 (Nat.le_succ _), ?_⟩
  intro k
  by_cases hk : k = (ty, name)
  · subst hk
    exact Or.inr hf
  · have hne : find? k (insertOv (ty, name) h st.scopedInstances) =
        find? k st.scopedInstances := find?_insertOv_ne _ _ _ _ hk
    rcases e5 k with g | g
    · exact Or.inl (hne.trans g)
    · exact Or.inr g

theorem runDeps_evolves
    (resolve : Nat → String → ResState → Option (ResState × Except DiError Holder))
    (H : ∀ t nm s s' r, resolve t nm s = some (s', r) → Evolves s s') :
    ∀ (deps : List Key) (s s' : ResState) (r : Except DiError Unit),
      runDeps resolve deps s = some (s', r) → Evolves s s' := by
  intro deps
  induction deps with
  | nil =>
    intro s s' r h
    simp only [runDeps, Option.some.injEq, Prod.mk.injEq] at h
    obtain ⟨rfl, -⟩ := h
    exact evolves_refl s
  | cons kv rest ih =>
    obtain ⟨t, nm⟩ := kv
    intro s s' r h
    simp only [runDeps] at h
    split at h
    · exact absurd h (by simp)
    · rename_i s1 e heq
      simp only [Option.some.injEq, Prod.mk.injEq] at h
      obtain ⟨rfl, -⟩ := h
      exact H _ _ _ _ _ heq
    · rename_i s1 u heq
      exact evolves_trans (H _ _ _ _ _ heq) (ih _ _ _ h)

theorem by_name_evolves :
    ∀ (fuel ty : Nat) (name : String) (st st' : ResState) (r : Except DiError Holder),
      by_name fuel ty name st = some (st', r) → Evolves st st' := by
  intro fuel
  induction fuel with
  | zero =>
    intro ty name st st' r h
    exact absurd h (by simp [by_name])
  | succ n ih =>
    intro ty name st st' r h
    simp only [by_name] at h
    split at h
    · simp only [Option.some.injEq, Prod.mk.injEq] at h
      obtain ⟨rfl, -⟩ := h
      exact evolves_refl st
    · rename_i stk hstk
      split at h
      · simp only [Option.some.injEq, Prod.mk.injEq] at h
        obtain ⟨rfl, -⟩ := h
        exact evolves_popStack (evolves_stackChange st _)
      · split at h
        · simp only [Option.some.injEq, Prod.mk.injEq] at h
          obtain ⟨rfl, -⟩ := h
          exact evolves_popStack (evolves_stackChange st _)
        · split at h
          · rename_i f hf
            split at h
            · exact absurd h (by simp)
            · rename_i st2 e heq
              simp only [Option.some.injEq, Prod.mk.injEq] at h
              obtain ⟨rfl, -⟩ := h
              exact evolves_popStack
                (evolves_trans (evolves_stackChange st _)
                  (runDeps_evolves _ (fun t nm s s' r hr => ih t nm s s' r hr) _ _ _ _ heq))
            · rename_i st2 u heq
              simp only [Option.some.injEq, Prod.mk.injEq] at h
              obtain ⟨rfl, -⟩ := h
              exact evolves_scopedInsert _ _ _ (by rw [hf]; rfl)
                (evolves_trans (evolves_stackChange st _)
                  (runDeps_evolves _ (fun t nm s s' r hr => ih t nm s s' r hr) _ _ _ _ heq))
          · split at h
            · rename_i f hf
              split at h
              · exact absurd h (by simp)
              · rename_i st2 e heq
                simp only [Option.some.injEq, Prod.mk.injEq] at h
                obtain ⟨rfl, -⟩ := h
                exact evolves_popStack
                  (evolves_trans (evolves_stackChange st _)
                    (runDeps_evolves _ (fun t nm s s' r hr => ih t nm s s' r hr) _ _ _ _ heq))
              · rename_i st2 u heq
                simp only [Option.some.injEq, Prod.mk.injEq] at h
                obtain ⟨rfl, -⟩ := h
                exact evolves_counterBump
                  (evolves_trans (evolves_stackChange st _)
                    (runDeps_evolves _ (fun t nm s s' r hr => ih t nm s s' r hr) _ _ _ _ heq))
            · simp only [Option.some.injEq, Prod.mk.injEq] at h
              obtain ⟨rfl, -⟩ := h
              exact evolves_popStack (evolves_stackChange st _)
theorem by_name_cycAB (n : Nat) :
    by_name n 0 "" cycAB = none ∧ by_name n 1 "" cycAB = none := by
  induction n with
  | zero => exact ⟨rfl, rfl⟩
  | succ m ih =>
    constructor
    · have ih2 : by_name m 1 ""
          (⟨[], [((0, ""), ⟨[(1, "")], 0⟩), ((1, ""), ⟨[(0, "")], 1⟩)], [], [],
            some [0, 1], 0⟩ : ResState) = none := ih.2
      simp only [by_name, cycAB, runDeps, pushTy, find?, popStack]
      simp [runDeps, ih2]
    · have ih1 : by_name m 0 ""
          (⟨[], [((0, ""), ⟨[(1, "")], 0⟩), ((1, ""), ⟨[(0, "")], 1⟩)], [], [],
            some [0, 1], 0⟩ : ResState) = none := ih.1
      simp only [by_name, cycAB, runDeps, pushTy, find?, popStack]
      simp [runDeps, ih1]

theorem by_name_cycA (n : Nat) : by_name n 1 "" cycA = none := by
  cases n with
  | zero => rfl
  | succ m =>
    have h0 : by_name m 0 ""
        (⟨[], [((0, ""), ⟨[(1, "")], 0⟩), ((1, ""), ⟨[(0, "")], 1⟩)], [], [],
          some [0, 1], 0⟩ : ResState) = none := (by_name_cycAB m).1
    simp only [by_name, cycA, runDeps, pushTy, find?, popStack]
    simp [runDeps, h0]

theorem by_name_cyc0 (n : Nat) : by_name n 0 "" cyc0 = none := by
  cases n with
  | zero => rfl
  | succ m =>
    have h1 : by_name m 1 ""
        (⟨[], [((0, ""), ⟨[(1, "")], 0⟩), ((1, ""), ⟨[(0, "")], 1⟩)], [], [],
          some [0], 0⟩ : ResState) = none := by_name_cycA m
    simp only [by_name, cyc0, runDeps, pushTy, find?, popStack]
    simp [runDeps, h1]

theorem by_name_guarded_cycAB (m : Nat) :
    by_name_guarded (m + 1) 0 "" cycAB =
      some (cycAB, .error (.circularDependency 0 "")) := by
  simp [by_name_guarded, cycAB]

theorem by_name_guarded_cycA (m : Nat) :
    by_name_guarded (m + 2) 1 "" cycA =
      some (cycA, .error (.circularDependency 0 "")) := by
  simp [by_name_guarded, runDeps, find?, pushTy, popStack, cycA]

theorem by_name_guarded_cyc0 (m : Nat) :
    by_name_guarded (m + 3) 0 "" cyc0 =
      some (cyc0, .error (.circularDependency 0 "")) := by
  simp [by_name_guarded, runDeps, find?, pushTy, popStack, cyc0]

/-- C1.  With types `0` and `1` scope-registered so that each constructor
resolves the other, resolving type `0` inside an active scope does **not**
return `Err(CircularDependency)` in bounded time: for *every* fuel bound, the
source's `by_name` fails to complete (the recursion is unbounded), because the
`CircularDependency` error built inside the first `RESOLVING_STACK.try_with`
closure is discarded by the `let _ = ...?;` binding in `DIScope::by_name`.
The spec-modelled resolver `by_name_guarded`, which lets the Cycle Guard abort
as §4.4/§4.5 intend, instead returns `CircularDependency` at any fuel bound
of at least 3 and leaves the state exactly as it was. -/
theorem cycle_resolution_diverges :
    (∀ fuel : Nat, by_name fuel 0 "" cyc0 = none) ∧
    (∀ n : Nat, by_name_guarded (n + 3) 0 "" cyc0 =
      some (cyc0, .error (.circularDependency 0 ""))) :=
  ⟨by_name_cyc0, by_name_guarded_cyc0⟩

theorem find?_all_tag {β : Type} (f : β → Nat) (ty : Nat) (name : String)
    (l : List (Key × β)) (v : β)
    (hall : l.all (fun e => f e.2 == e.1.1) = true)
    (hf : find? (ty, name) l = some v) : f v = ty := by
  have hm := find?_mem _ _ _ hf
  have h2 := (List.all_eq_true.mp hall) _ hm
  simpa using h2

theorem insertOv_all {β : Type} (p : Key × β → Bool) (k : Key) (v : β)
    (l : List (Key × β)) (hall : l.all p = true) (hv : p (k, v) = true) :
    (insertOv k v l).all p = true := by
  induction l with
  | nil => simp [insertOv, hv]
  | cons e rest ih =>
    obtain ⟨k', v'⟩ := e
    simp only [List.all_cons, Bool.and_eq_true] at hall
    by_cases h : k' = k
    · subst h
      simp [insertOv, hv, hall.2]
    · simp only [insertOv, if_neg h, List.all_cons, Bool.and_eq_true]
      exact ⟨hall.1, ih hall.2⟩

theorem runDeps_tagged
    (resolve : Nat → String → ResState → Option (ResState × Except DiError Holder))
    (H : ∀ t nm s s' r, wellTagged s = true → resolve t nm s = some (s', r) →
      wellTagged s' = true) :
    ∀ (deps : List Key) (s s' : ResState) (r : Except DiError Unit),
      wellTagged s = true → runDeps resolve deps s = some (s', r) →
      wellTagged s' = true := by
  intro deps
  induction deps with
  | nil =>
    intro s s' r hw h
    simp only [runDeps, Option.some.injEq, Prod.mk.injEq] at h
    obtain ⟨rfl, -⟩ := h
    exact hw
  | cons kv rest ih =>
    obtain ⟨t, nm⟩ := kv
    intro s s' r hw h
    simp only [runDeps] at h
    split at h
    · exact absurd h (by simp)
    · rename_i s1 e heq
      simp only [Option.some.injEq, Prod.mk.injEq] at h
      obtain ⟨rfl, -⟩ := h
      exact H _ _ _ _ _ hw heq
    · rename_i s1 u heq
      exact ih _ _ _ (H _ _ _ _ _ hw heq) h

theorem by_name_tagged :
    ∀ (fuel ty : Nat) (name : String) (st st' : ResState) (r : Except DiError Holder),
      wellTagged st = true → by_name fuel ty name st = some (st', r) →
      wellTagged st' = true ∧ ∀ h, r = .ok h → h.tag = ty := by
  intro fuel
  induction fuel with
  | zero =>
    intro ty name st st' r hw h
    exact absurd h (by simp [by_name])
  | succ n ih =>
    intro ty name st st' r hw h
    have hw4 := hw
    simp only [wellTagged, Bool.and_eq_true] at hw4
    obtain ⟨⟨⟨hwS, hwC⟩, hwF⟩, hwT⟩ := hw4
    simp only [by_name] at h
    split at h
    · simp only [Option.some.injEq, Prod.mk.injEq] at h
      obtain ⟨rfl, hr⟩ := h
      exact ⟨hw, fun h hherr => by rw [← hr] at hherr; exact Except.noConfusion hherr⟩
    · rename_i stk hstk
      have hw1 : wellTagged { st with stack := some (pushTy ty stk) } = true := hw
      split at h
      · rename_i hS hfS
        simp only [Option.some.injEq, Prod.mk.injEq] at h
        obtain ⟨rfl, hr⟩ := h
        refine ⟨hw, fun h hok => ?_⟩
        rw [← hr] at hok
        injection hok with hok2
        rw [← hok2]
        exact find?_all_tag (fun x => x.tag) _ _ _ _ hwS hfS
      · split at h
        · rename_i hC hfC
          simp only [Option.some.injEq, Prod.mk.injEq] at h
          obtain ⟨rfl, hr⟩ := h
          refine ⟨hw, fun h hok => ?_⟩
          rw [← hr] at hok
          injection hok with hok2
          rw [← hok2]
          exact find?_all_tag (fun x => x.tag) _ _ _ _ hwC hfC
        · split at h
          · rename_i f hfF
            have hftag : f.tag = ty := find?_all_tag (fun x => x.tag) _ _ _ _ hwF hfF
            split at h
            · exact absurd h (by simp)
            · rename_i st2 e heq
              simp only [Option.some.injEq, Prod.mk.injEq] at h
              obtain ⟨rfl, hr⟩ := h
              have hw2 : wellTagged st2 = true :=
                runDeps_tagged _ (fun t nm s s' r hws hrs => (ih t nm s s' r hws hrs).1)
                  _ _ _ _ hw1 heq
              exact ⟨hw2, fun h hok => by rw [← hr] at hok; exact Except.noConfusion hok⟩
            · rename_i st2 u heq
              simp only [Option.some.injEq, Prod.mk.injEq] at h
              obtain ⟨rfl, hr⟩ := h
              have hw2 : wellTagged st2 = true :=
                runDeps_tagged _ (fun t nm s s' r hws hrs => (ih t nm s s' r hws hrs).1)
                  _ _ _ _ hw1 heq
              have hw2' := hw2
              simp only [wellTagged, Bool.and_eq_true] at hw2'
              obtain ⟨⟨⟨hw2S, hw2C⟩, hw2F⟩, hw2T⟩ := hw2'
              constructor
              · simp only [wellTagged, popStack, Bool.and_eq_true]
                refine ⟨⟨⟨hw2S, ?_⟩, hw2F⟩, hw2T⟩
                exact insertOv_all _ _ _ _ hw2C (by simp [hftag])
              · intro h hok
                rw [← hr] at hok
                injection hok with hok2
                rw [← hok2]
                exact hftag
          · split at h
            · rename_i f hfT
              have hftag : f.tag = ty := find?_all_tag (fun x => x.tag) _ _ _ _ hwT hfT
              split at h
              · exact absurd h (by simp)
              · rename_i st2 e heq
                simp only [Option.some.injEq, Prod.mk.injEq] at h
                obtain ⟨rfl, hr⟩ := h
                have hw2 : wellTagged st2 = true :=
                  runDeps_tagged _ (fun t nm s s' r hws hrs => (ih t nm s s' r hws hrs).1)
                    _ _ _ _ hw1 heq
                exact ⟨hw2, fun h hok => by rw [← hr] at hok; exact Except.noConfusion hok⟩
              · rename_i st2 u heq
                simp only [Option.some.injEq, Prod.mk.injEq] at h
                obtain ⟨rfl, hr⟩ := h
                have hw2 : wellTagged st2 = true :=
                  runDeps_tagged _ (fun t nm s s' r hws hrs => (ih t nm s s' r hws hrs).1)
                    _ _ _ _ hw1 heq
                refine ⟨hw2, fun h hok => ?_⟩
                rw [← hr] at hok
                injection hok with hok2
                rw [← hok2]
                exact hftag
            · simp only [Option.some.injEq, Prod.mk.injEq] at h
              obtain ⟨rfl, hr⟩ := h
              exact ⟨hw, fun h hherr => by rw [← hr] at hherr; exact Except.noConfusion hherr⟩

theorem by_name_ok_singleton (fuel ty : Nat) (name : String) (st st' : ResState)
    (hS hOut : Holder)
    (hfind : find? (ty, name) st.singletons = some hS)
    (hr : by_name fuel ty name st = some (st', .ok hOut)) : hOut = hS := by
  cases fuel with
  | zero => exact absurd hr (by simp [by_name])
  | succ n =>
    simp only [by_name] at hr
    split at hr
    · simp at hr
    · rw [hfind] at hr
      simp only [Option.some.injEq, Prod.mk.injEq, Except.ok.injEq] at hr
      exact hr.2.symm

theorem by_name_ok_scoped (fuel ty : Nat) (name : String) (st st' : ResState)
    (hC hOut : Holder)
    (hs : find? (ty, name) st.singletons = none)
    (hc : find? (ty, name) st.scopedInstances = some hC)
    (hr : by_name fuel ty name st = some (st', .ok hOut)) : hOut = hC := by
  cases fuel with
  | zero => exact absurd hr (by simp [by_name])
  | succ n =>
    simp only [by_name] at hr
    split at hr
    · simp at hr
    · rw [hs, hc] at hr
      simp only [Option.some.injEq, Prod.mk.injEq, Except.ok.injEq] at hr
      exact hr.2.symm

theorem by_name_ok_scopedPath (fuel ty : Nat) (name : String) (st st' : ResState)
    (hOut : Holder)
    (hs : find? (ty, name) st.singletons = none)
    (hsf : (find? (ty, name) st.scopeFactories).isSome)
    (hr : by_name fuel ty name st = some (st', .ok hOut)) :
    find? (ty, name) st'.singletons = none ∧
    find? (ty, name) st'.scopedInstances = some hOut := by
  cases fuel with
  | zero => exact absurd hr (by simp [by_name])
  | succ n =>
    simp only [by_name] at hr
    split at hr
    · simp at hr
    · rename_i stk hstk
      split at hr
      · rename_i hS hfS
        exact absurd hfS (by simp [hs])
      · split at hr
        · rename_i hC hfC
          simp only [Option.some.injEq, Prod.mk.injEq, Except.ok.injEq] at hr
          obtain ⟨hst, hh⟩ := hr
          rw [← hst, ← hh]
          exact ⟨hs, hfC⟩
        · split at hr
          · rename_i f hfF
            split at hr
            · simp at hr
            · simp at hr
            · rename_i st2 u heq
              have he : Evolves { st with stack := some (pushTy ty stk) } st2 :=
                runDeps_evolves _ (fun t nm s s' r h => by_name_evolves n t nm s s' r h)
                  _ _ _ _ heq
              simp only [Option.some.injEq, Prod.mk.injEq, Except.ok.injEq] at hr
              obtain ⟨hst, hh⟩ := hr
              rw [← hst, ← hh]
              constructor
              · show find? (ty, name) st2.singletons = none
                rw [he.1]
                exact hs
              · exact find?_insertOv_self _ _ _
          · rename_i hf0
            exact absurd hsf (by simp [hf0])

theorem by_name_ok_transient (fuel ty : Nat) (name : String) (st st' : ResState)
    (hOut : Holder)
    (hs : find? (ty, name) st.singletons = none)
    (hc : find? (ty, name) st.scopedInstances = none)
    (hsf : find? (ty, name) st.scopeFactories = none)
    (hr : by_name fuel ty name st = some (st', .ok hOut)) :
    st.counter ≤ hOut.id ∧ hOut.id + 1 ≤ st'.counter ∧
    find? (ty, name) st'.singletons = none ∧
    find? (ty, name) st'.scopedInstances = none ∧
    find? (ty, name) st'.scopeFactories = none := by
  cases fuel with
  | zero => exact absurd hr (by simp [by_name])
  | succ n =>
    simp only [by_name] at hr
    split at hr
    · simp at hr
    · rename_i stk hstk
      split at hr
      · rename_i hS hfS
        exact absurd hfS (by simp [hs])
      · split at hr
        · rename_i hC hfC
          exact absurd hfC (by simp [hc])
        · split at hr
          · rename_i f hfF
            exact absurd hfF (by simp [hsf])
          · split at hr
            · rename_i f hfT
              split at hr
              · simp at hr
              · simp at hr
              · rename_i st2 u heq
                have he : Evolves { st with stack := some (pushTy ty stk) } st2 :=
                  runDeps_evolves _ (fun t nm s s' r h => by_name_evolves n t nm s s' r h)
                    _ _ _ _ heq
                simp only [Option.some.injEq, Prod.mk.injEq, Except.ok.injEq] at hr
                obtain ⟨hst, hh⟩ := hr
                rw [← hst, ← hh]
                refine ⟨he.2.2.2.1, Nat.le_refl _, ?_, ?_, ?_⟩
                · show find? (ty, name) st2.singletons = none
                  rw [he.1]
                  exact hs
                · show find? (ty, name) st2.scopedInstances = none
                  rcases he.2.2.2.2 (ty, name) with g | g
                  · rw [g]; exact hc
                  · rw [show find? (ty, name)
                        ({ st with stack := some (pushTy ty stk) } : ResState).scopeFactories =
                        none from hsf] at g
                    simp at g
                · show find? (ty, name) st2.scopeFactories = none
                  rw [he.2.1]
                  exact hsf
            · simp at hr

theorem by_name_not_found (fuel ty : Nat) (name : String) (st : ResState) (stk : List Nat)
    (hstk : st.stack = some stk)
    (h1 : find? (ty, name) st.singletons = none)
    (h2 : find? (ty, name) st.scopedInstances = none)
    (h3 : find? (ty, name) st.scopeFactories = none)
    (h4 : find? (ty, name) st.transientFactories = none) :
    by_name (fuel + 1) ty name st =
      some (popStack { st with stack := some (pushTy ty stk) },
        .error (.serviceNotFound ty name)) := by
  simp [by_name, hstk, h1, h2, h3, h4]

theorem find?_append_new {β : Type} (k : Key) (v : β) (l : List (Key × β))
    (h : find? k l = none) : find? k (l ++ [(k, v)]) = some v := by
  induction l with
  | nil => simp [find?]
  | cons e rest ih =>
    obtain ⟨k', v'⟩ := e
    by_cases h2 : k' = k
    · subst h2
      simp [find?] at h
    · simp only [find?, if_neg h2] at h
      simp only [List.cons_append, find?, if_neg h2]
      exact ih h

theorem register_factory_all (ty : Nat) (name : String) (deps : List Key)
    (registry r : List (Key × Factory))
    (hall : registry.all (fun e => e.2.tag == e.1.1) = true)
    (hr : register_factory ty name deps registry = .ok r) :
    r.all (fun e => e.2.tag == e.1.1) = true := by
  simp only [register_factory] at hr
  split at hr
  · exact absurd hr (by simp)
  · simp only [Except.ok.injEq] at hr
    rw [← hr]
    simp [List.all_append, hall]

theorem register_transient_name_tagged (ty : Nat) (name : String) (deps : List Key)
    (st st' : ResState) (hw : wellTagged st = true)
    (hr : register_transient_name ty name deps st = .ok st') : wellTagged st' = true := by
  simp only [wellTagged, Bool.and_eq_true] at hw
  obtain ⟨⟨⟨hwS, hwC⟩, hwF⟩, hwT⟩ := hw
  simp only [register_transient_name] at hr
  cases hreg : register_factory ty name deps st.transientFactories with
  | error e =>
    rw [hreg] at hr
    exact absurd hr (by simp [Except.map])
  | ok v =>
    rw [hreg] at hr
    simp only [Except.map, Except.ok.injEq] at hr
    rw [← hr]
    simp only [wellTagged, Bool.and_eq_true]
    exact ⟨⟨⟨hwS, hwC⟩, hwF⟩, register_factory_all _ _ _ _ _ hwT hreg⟩

theorem register_scope_name_tagged (ty : Nat) (name : String) (deps : List Key)
    (st st' : ResState) (hw : wellTagged st = true)
    (hr : register_scope_name ty name deps st = .ok st') : wellTagged st' = true := by
  simp only [wellTagged, Bool.and_eq_true] at hw
  obtain ⟨⟨⟨hwS, hwC⟩, hwF⟩, hwT⟩ := hw
  simp only [register_scope_name] at hr
  cases hreg : register_factory ty name deps st.scopeFactories with
  | error e =>
    rw [hreg] at hr
    exact absurd hr (by simp [Except.map])
  | ok v =>
    rw [hreg] at hr
    simp only [Except.map, Except.ok.injEq] at hr
    rw [← hr]
    simp only [wellTagged, Bool.and_eq_true]
    exact ⟨⟨⟨hwS, hwC⟩, register_factory_all _ _ _ _ _ hwF hreg⟩, hwT⟩

theorem register_singleton_name_tagged (ty : Nat) (name : String)
    (st st' : ResState) (hw : wellTagged st = true)
    (hr : register_singleton_name ty name st = .ok st') : wellTagged st' = true := by
  simp only [wellTagged, Bool.and_eq_true] at hw
  obtain ⟨⟨⟨hwS, hwC⟩, hwF⟩, hwT⟩ := hw
  simp only [register_singleton_name] at hr
  split at hr
  · exact absurd hr (by simp)
  · simp only [Except.ok.injEq] at hr
    rw [← hr]
    simp only [wellTagged, Bool.and_eq_true]
    refine ⟨⟨⟨?_, hwC⟩, hwF⟩, hwT⟩
    simp [List.all_append, hwS]

/-- C2 (counterexample).  Built purely through the registration/resolution
API: scope-register type `0`, resolve it once (filling the scoped cache with
holder `⟨0, 0⟩`), then singleton-register the same key (which succeeds, since
the duplicate check is per-category), and resolve again.  The second
resolution returns the singleton holder `⟨1, 0⟩`, not the cached scoped holder
`⟨0, 0⟩` — refuting the claim that the scoped cache entry wins over a
singleton entry for the same key. -/
theorem lookup_order_cex :
    register_scope 0 [] ⟨[], [], [], [], some [], 0⟩ =
      .ok ⟨[], [((0, ""), ⟨[], 0⟩)], [], [], some [], 0⟩ ∧
    by_name 1 0 "" ⟨[], [((0, ""), ⟨[], 0⟩)], [], [], some [], 0⟩ =
      some (⟨[], [((0, ""), ⟨[], 0⟩)], [], [((0, ""), ⟨0, 0⟩)], some [], 1⟩, .ok ⟨0, 0⟩) ∧
    register_singleton 0 ⟨[], [((0, ""), ⟨[], 0⟩)], [], [((0, ""), ⟨0, 0⟩)], some [], 1⟩ =
      .ok ⟨[((0, ""), ⟨1, 0⟩)], [((0, ""), ⟨[], 0⟩)], [], [((0, ""), ⟨0, 0⟩)], some [], 2⟩ ∧
    by_name 1 0 ""
        ⟨[((0, ""), ⟨1, 0⟩)], [((0, ""), ⟨[], 0⟩)], [], [((0, ""), ⟨0, 0⟩)], some [], 2⟩ =
      some (⟨[((0, ""), ⟨1, 0⟩)], [((0, ""), ⟨[], 0⟩)], [], [((0, ""), ⟨0, 0⟩)], some [], 2⟩,
        .ok ⟨1, 0⟩) ∧
    find? (0, "") ([((0, ""), ⟨0, 0⟩)] : List (Key × Holder)) = some ⟨0, 0⟩ ∧
    (⟨1, 0⟩ : Holder) ≠ ⟨0, 0⟩ := by
  decide

/-- C2 (amended).  The actual lookup order of `DIScope::by_name`, first match
winning: the singleton map first, then the scope's scoped cache, then the
scope factories, then the transient factories, else `ServiceNotFound`.  In
particular a singleton entry wins over a cached scoped instance for the same
key (first conjunct: no assumption on the scoped cache is needed). -/
theorem lookup_order_code (fuel ty : Nat) (name : String) (st : ResState)
    (stk : List Nat) (hstk : st.stack = some stk) :
    (∀ h, find? (ty, name) st.singletons = some h →
      by_name (fuel + 1) ty name st =
        some (popStack { st with stack := some (pushTy ty stk) }, .ok h)) ∧
    (∀ h, find? (ty, name) st.singletons = none →
      find? (ty, name) st.scopedInstances = some h →
      by_name (fuel + 1) ty name st =
        some (popStack { st with stack := some (pushTy ty stk) }, .ok h)) ∧
    (find? (ty, name) st.singletons = none →
      find? (ty, name) st.scopedInstances = none →
      find? (ty, name) st.scopeFactories = none →
      find? (ty, name) st.transientFactories = none →
      by_name (fuel + 1) ty name st =
        some (popStack { st with stack := some (pushTy ty stk) },
          .error (.serviceNotFound ty name))) := by
  refine ⟨fun h hS => ?_, fun h hS hC => ?_, fun hS hC hF hT => ?_⟩
  · simp [by_name, hstk, hS]
  · simp [by_name, hstk, hS, hC]
  · simp [by_name, hstk, hS, hC, hF, hT]

theorem lookup_order_code_witness :
    by_name 1 0 ""
        ⟨[((0, ""), ⟨1, 0⟩)], [], [], [((0, ""), ⟨0, 0⟩)], some [], 2⟩ =
      some (popStack
          { (⟨[((0, ""), ⟨1, 0⟩)], [], [], [((0, ""), ⟨0, 0⟩)], some [], 2⟩ : ResState) with
            stack := some (pushTy 0 []) }, .ok ⟨1, 0⟩) :=
  (lookup_order_code 0 0 "" _ [] rfl).1 ⟨1, 0⟩ (by decide)

/-- C3 (counterexample).  Immediately after `register_singleton` on an empty
state — with no resolution ever performed — the singleton map already contains
the freshly created holder (and the allocation counter has advanced), so the
holder is created at registration time, not lazily at the first resolution
demand. -/
theorem singleton_eager_cex :
    register_singleton 7 ⟨[], [], [], [], some [], 0⟩ =
      .ok ⟨[((7, ""), ⟨0, 7⟩)], [], [], [], some [], 1⟩ ∧
    find? (7, "") ([((7, ""), ⟨0, 7⟩)] : List (Key × Holder)) = some ⟨0, 7⟩ := by
  decide

/-- C3 (amended).  Singleton holders are created eagerly: a successful
`register_singleton_name` wraps the caller-supplied instance in a holder and
inserts it into the singleton map at registration time; resolution never adds
or removes singleton entries; only the explicit test-only full reset clears
them. -/
theorem singleton_eager_registration (ty : Nat) (name : String) (st st' : ResState)
    (hreg : register_singleton_name ty name st = .ok st') :
    find? (ty, name) st'.singletons = some ⟨st.counter, ty⟩ ∧
    (∀ fuel t nm s s' r, by_name fuel t nm s = some (s', r) →
      s'.singletons = s.singletons) ∧
    (reset_global_di_state st').singletons = [] := by
  refine ⟨?_, fun fuel t nm s s' r h => (by_name_evolves fuel t nm s s' r h).1, rfl⟩
  simp only [register_singleton_name] at hreg
  split at hreg
  · exact absurd hreg (by simp)
  · rename_i hnone
    simp only [Except.ok.injEq] at hreg
    rw [← hreg]
    show find? (ty, name) (st.singletons ++ [((ty, name), ⟨st.counter, ty⟩)]) =
      some ⟨st.counter, ty⟩
    exact find?_append_new _ _ _ (by simpa using hnone)

theorem singleton_eager_registration_witness :
    find? (7, "") (⟨[((7, ""), ⟨0, 7⟩)], [], [], [], some [], 1⟩ : ResState).singletons =
      some ⟨0, 7⟩ :=
  (singleton_eager_registration 7 "" ⟨[], [], [], [], some [], 0⟩
    ⟨[((7, ""), ⟨0, 7⟩)], [], [], [], some [], 1⟩ (by decide)).1

/-- C4 (counterexample).  Registering key `(0, "")` as a transient and then
registering the *same* key as a singleton succeeds — the duplicate check of
each registration function only consults its own category's registry, so a
second registration of an existing key in a *different* lifecycle category is
not rejected, refuting the claim. -/
theorem duplicate_cross_category_cex :
    register_transient 0 [] ⟨[], [], [], [], some [], 0⟩ =
      .ok ⟨[], [], [((0, ""), ⟨[], 0⟩)], [], some [], 0⟩ ∧
    register_singleton 0 ⟨[], [], [((0, ""), ⟨[], 0⟩)], [], some [], 0⟩ =
      .ok ⟨[((0, ""), ⟨0, 0⟩)], [], [((0, ""), ⟨[], 0⟩)], [], some [], 1⟩ := by
  decide

/-- C4 (amended).  A second registration of an already registered key is
rejected with `ServiceAlreadyRegistered` — and the registries are left
unchanged, the error being returned before any snapshot replacement — exactly
when the duplicate is in the *same* lifecycle category; a duplicate in a
different category is not detected (see the counterexample). -/
theorem duplicate_same_category_rejected (ty : Nat) (name : String) (st : ResState) :
    (∀ deps, (find? (ty, name) st.transientFactories).isSome →
      register_transient_name ty name deps st =
        .error (.serviceAlreadyRegistered ty name)) ∧
    (∀ deps, (find? (ty, name) st.scopeFactories).isSome →
      register_scope_name ty name deps st =
        .error (.serviceAlreadyRegistered ty name)) ∧
    ((find? (ty, name) st.singletons).isSome →
      register_singleton_name ty name st =
        .error (.serviceAlreadyRegistered ty name)) := by
  refine ⟨fun deps h => ?_, fun deps h => ?_, fun h => ?_⟩
  · simp [register_transient_name, register_factory, h, Except.map]
  · simp [register_scope_name, register_factory, h, Except.map]
  · simp [register_singleton_name, h]

theorem duplicate_same_category_rejected_witness :
    register_transient_name 0 "" [] ⟨[], [], [((0, ""), ⟨[], 0⟩)], [], some [], 0⟩ =
      .error (.serviceAlreadyRegistered 0 "") :=
  (duplicate_same_category_rejected 0 "" _).1 [] (by decide)

/-- C5 (counterexample).  A holder whose stored runtime type tag (`99`)
differs from the requested type (`0`) is returned by the full resolution
(including the type-erasure conversion) as `.ok`, not as an error: the
conversion `Arc::into_raw` / `.cast()` / `Arc::from_raw` at the end of
`by_name` is an unchecked cast with no mismatch check at all, refuting the
claim that a runtime type mismatch is surfaced as a returned error. -/
theorem cast_mismatch_not_error_cex :
    (⟨5, 99⟩ : Holder).tag ≠ 0 ∧
    by_name_typed 1 0 "" ⟨[((0, ""), ⟨5, 99⟩)], [], [], [], some [], 6⟩ =
      some (⟨[((0, ""), ⟨5, 99⟩)], [], [], [], some [], 6⟩, .ok ⟨0, 5⟩) := by
  decide

/-- C5 (amended).  The conversion back to a typed handle never checks the
stored value's runtime type and so never returns a mismatch error; instead,
its soundness rests on the registration invariant `wellTagged` (every stored
holder/factory carries its key's type identity), which every registration
function preserves and which resolution preserves — and under which every
successfully resolved holder's tag equals the requested type, so the unchecked
cast coincides with the tag-faithful reinterpretation. -/
theorem cast_unchecked_but_tags_match :
    (∀ ty name deps st st', wellTagged st = true →
      register_transient_name ty name deps st = .ok st' → wellTagged st' = true) ∧
    (∀ ty name deps st st', wellTagged st = true →
      register_scope_name ty name deps st = .ok st' → wellTagged st' = true) ∧
    (∀ ty name st st', wellTagged st = true →
      register_singleton_name ty name st = .ok st' → wellTagged st' = true) ∧
    (∀ fuel ty name st st' r, wellTagged st = true →
      by_name fuel ty name st = some (st', r) →
      wellTagged st' = true ∧
        ∀ h, r = .ok h → h.tag = ty ∧ cast_holder ty h = ⟨h.tag, h.id⟩) := by
  refine ⟨fun ty name deps st st' hw hr =>
      register_transient_name_tagged ty name deps st st' hw hr,
    fun ty name deps st st' hw hr =>
      register_scope_name_tagged ty name deps st st' hw hr,
    fun ty name st st' hw hr =>
      register_singleton_name_tagged ty name st st' hw hr,
    fun fuel ty name st st' r hw hr => ?_⟩
  obtain ⟨hw', htag⟩ := by_name_tagged fuel ty name st st' r hw hr
  refine ⟨hw', fun h hok => ?_⟩
  have ht := htag h hok
  exact ⟨ht, by simp [cast_holder, ht]⟩

theorem cast_unchecked_but_tags_match_witness :
    wellTagged ⟨[((0, ""), ⟨3, 0⟩)], [], [], [], some [], 4⟩ = true ∧
    ((⟨3, 0⟩ : Holder).tag = 0 ∧ cast_holder 0 ⟨3, 0⟩ = ⟨(⟨3, 0⟩ : Holder).tag, 3⟩) :=
  ⟨by decide,
    (cast_unchecked_but_tags_match.2.2.2 1 0 "" ⟨[((0, ""), ⟨3, 0⟩)], [], [], [], some [], 4⟩
      ⟨[((0, ""), ⟨3, 0⟩)], [], [], [], some [], 4⟩ (.ok ⟨3, 0⟩) (by decide) (by decide)).2
      ⟨3, 0⟩ rfl⟩

theorem find?_append_of_some {β : Type} (k : Key) (v : β) (l l' : List (Key × β))
    (h : find? k l = some v) : find? k (l ++ l') = some v := by
  induction l with
  | nil => simp [find?] at h
  | cons e rest ih =>
    obtain ⟨k', v'⟩ := e
    simp only [List.cons_append, find?] at h ⊢
    by_cases h2 : k' = k
    · simpa [h2] using h
    · simp only [if_neg h2] at h ⊢
      exact ih h

theorem runDeps_scoped_persists
    (resolve : Nat → String → ResState → Option (ResState × Except DiError Holder))
    (H : ∀ t nm s s' r k h, find? k s.scopedInstances = some h →
      resolve t nm s = some (s', r) → find? k s'.scopedInstances = some h) :
    ∀ (deps : List Key) (s s' : ResState) (r : Except DiError Unit) (k : Key) (h : Holder),
      find? k s.scopedInstances = some h → runDeps resolve deps s = some (s', r) →
      find? k s'.scopedInstances = some h := by
  intro deps
  induction deps with
  | nil =>
    intro s s' r k h hf hrun
    simp only [runDeps, Option.some.injEq, Prod.mk.injEq] at hrun
    obtain ⟨rfl, -⟩ := hrun
    exact hf
  | cons kv rest ih =>
    obtain ⟨t, nm⟩ := kv
    intro s s' r k h hf hrun
    simp only [runDeps] at hrun
    split at hrun
    · exact absurd hrun (by simp)
    · rename_i s1 e heq
      simp only [Option.some.injEq, Prod.mk.injEq] at hrun
      obtain ⟨rfl, -⟩ := hrun
      exact H _ _ _ _ _ _ _ hf heq
    · rename_i s1 u heq
      exact ih _ _ _ _ _ (H _ _ _ _ _ _ _ hf heq) hrun

theorem by_name_scoped_persists :
    ∀ (fuel t : Nat) (nm : String) (st st' : ResState) (r : Except DiError Holder)
      (k : Key) (h : Holder),
      find? k st.scopedInstances = some h →
      by_name fuel t nm st = some (st', r) →
      find? k st'.scopedInstances = some h := by
  intro fuel
  induction fuel with
  | zero =>
    intro t nm st st' r k h hf hr
    exact absurd hr (by simp [by_name])
  | succ n ih =>
    intro t nm st st' r k h hf hr
    simp only [by_name] at hr
    split at hr
    · simp only [Option.some.injEq, Prod.mk.injEq] at hr
      obtain ⟨rfl, -⟩ := hr
      exact hf
    · rename_i stk hstk
      have hf1 : find? k ({ st with stack := some (pushTy t stk) } : ResState).scopedInstances =
          some h := hf
      split at hr
      · simp only [Option.some.injEq, Prod.mk.injEq] at hr
        obtain ⟨rfl, -⟩ := hr
        exact hf
      · split at hr
        · simp only [Option.some.injEq, Prod.mk.injEq] at hr
          obtain ⟨rfl, -⟩ := hr
          exact hf
        · rename_i hCnone
          split at hr
          · rename_i f hfF
            split at hr
            · exact absurd hr (by simp)
            · rename_i st2 e heq
              simp only [Option.some.injEq, Prod.mk.injEq] at hr
              obtain ⟨rfl, -⟩ := hr
              have h2 := runDeps_scoped_persists _
                (fun a b s s' r2 k2 h2 hf2 hr2 => ih a b s s' r2 k2 h2 hf2 hr2)
                _ _ _ _ _ _ hf1 heq
              exact h2
            · rename_i st2 u heq
              simp only [Option.some.injEq, Prod.mk.injEq] at hr
              obtain ⟨rfl, -⟩ := hr
              have hk : k ≠ (t, nm) := by
                intro hEq
                rw [hEq] at hf
                rw [hf] at hCnone
                cases hCnone
              have h2 : find? k st2.scopedInstances = some h :=
                runDeps_scoped_persists _
                  (fun a b s s' r2 k2 h2 hf2 hr2 => ih a b s s' r2 k2 h2 hf2 hr2)
                  _ _ _ _ _ _ hf1 heq
              show find? k (insertOv (t, nm) _ st2.scopedInstances) = some h
              rw [find?_insertOv_ne _ _ _ _ hk]
              exact h2
          · split at hr
            · rename_i f hfT
              split at hr
              · exact absurd hr (by simp)
              · rename_i st2 e heq
                simp only [Option.some.injEq, Prod.mk.injEq] at hr
                obtain ⟨rfl, -⟩ := hr
                have h2 := runDeps_scoped_persists _
                  (fun a b s s' r2 k2 h2 hf2 hr2 => ih a b s s' r2 k2 h2 hf2 hr2)
                  _ _ _ _ _ _ hf1 heq
                exact h2
              · rename_i st2 u heq
                simp only [Option.some.injEq, Prod.mk.injEq] at hr
                obtain ⟨rfl, -⟩ := hr
                have h2 := runDeps_scoped_persists _
                  (fun a b s s' r2 k2 h2 hf2 hr2 => ih a b s s' r2 k2 h2 hf2 hr2)
                  _ _ _ _ _ _ hf1 heq
                exact h2
            · simp only [Option.some.injEq, Prod.mk.injEq] at hr
              obtain ⟨rfl, -⟩ := hr
              exact hf

theorem register_transient_name_frame (ty : Nat) (name : String) (deps : List Key)
    (st st' : ResState) (hr : register_transient_name ty name deps st = .ok st') :
    st'.singletons = st.singletons ∧ st'.scopedInstances = st.scopedInstances := by
  simp only [register_transient_name] at hr
  cases hreg : register_factory ty name deps st.transientFactories with
  | error e =>
    rw [hreg] at hr
    exact absurd hr (by simp [Except.map])
  | ok v =>
    rw [hreg] at hr
    simp only [Except.map, Except.ok.injEq] at hr
    rw [← hr]
    exact ⟨rfl, rfl⟩

theorem register_scope_name_frame (ty : Nat) (name : String) (deps : List Key)
    (st st' : ResState) (hr : register_scope_name ty name deps st = .ok st') :
    st'.singletons = st.singletons ∧ st'.scopedInstances = st.scopedInstances := by
  simp only [register_scope_name] at hr
  cases hreg : register_factory ty name deps st.scopeFactories with
  | error e =>
    rw [hreg] at hr
    exact absurd hr (by simp [Except.map])
  | ok v =>
    rw [hreg] at hr
    simp only [Except.map, Except.ok.injEq] at hr
    rw [← hr]
    exact ⟨rfl, rfl⟩

theorem register_singleton_name_frame (ty : Nat) (name : String) (st st' : ResState)
    (hr : register_singleton_name ty name st = .ok st') :
    st'.scopedInstances = st.scopedInstances ∧
    ∀ k hS, find? k st.singletons = some hS → find? k st'.singletons = some hS := by
  simp only [register_singleton_name] at hr
  split at hr
  · exact absurd hr (by simp)
  · simp only [Except.ok.injEq] at hr
    rw [← hr]
    exact ⟨rfl, fun k hS hf => find?_append_of_some _ _ _ _ hf⟩

theorem reaches_singleton_persists (st st' : ResState) (hr : Reaches st st') :
    ∀ (k : Key) (hS : Holder), find? k st.singletons = some hS →
      find? k st'.singletons = some hS := by
  induction hr with
  | refl s => exact fun k hS hf => hf
  | resolve fuel ty name r hstep htail ih =>
    intro k hS hf
    apply ih
    rw [(by_name_evolves _ _ _ _ _ _ hstep).1]
    exact hf
  | registerTransient ty name deps hstep htail ih =>
    intro k hS hf
    apply ih
    rw [(register_transient_name_frame _ _ _ _ _ hstep).1]
    exact hf
  | registerScope ty name deps hstep htail ih =>
    intro k hS hf
    apply ih
    rw [(register_scope_name_frame _ _ _ _ _ hstep).1]
    exact hf
  | registerSingleton ty name hstep htail ih =>
    intro k hS hf
    exact ih _ _ ((register_singleton_name_frame _ _ _ _ hstep).2 _ _ hf)
  | newScope htail ih =>
    intro k hS hf
    exact ih _ _ hf

theorem reachesInScope_scoped_persists (st st' : ResState) (hr : ReachesInScope st st') :
    ∀ (k : Key) (h : Holder), find? k st.scopedInstances = some h →
      find? k st'.scopedInstances = some h := by
  induction hr with
  | refl s => exact fun k h hf => hf
  | resolve fuel ty name r hstep htail ih =>
    intro k h hf
    exact ih _ _ (by_name_scoped_persists _ _ _ _ _ _ _ _ hf hstep)
  | registerTransient ty name deps hstep htail ih =>
    intro k h hf
    apply ih
    rw [(register_transient_name_frame _ _ _ _ _ hstep).2]
    exact hf
  | registerScope ty name deps hstep htail ih =>
    intro k h hf
    apply ih
    rw [(register_scope_name_frame _ _ _ _ _ hstep).2]
    exact hf
  | registerSingleton ty name hstep htail ih =>
    intro k h hf
    apply ih
    rw [(register_singleton_name_frame _ _ _ _ hstep).1]
    exact hf

/-- C6.  For a fixed key under the singleton or scoped lifecycle, every pair
of successful resolutions within the key's valid lifetime yields the identical
underlying holder — identity of the `Arc` allocation (the `Holder`, whose `id`
is the allocation identity), not value equality of the wrapped service:
(1) singleton — the two resolutions may lie in *different* scopes and be
separated by arbitrary further resolutions, registrations and scope entries
(`Reaches` covers the whole process);
(2) the singleton entry itself persists across every such step, so the key's
valid lifetime is indeed the whole process (only the test-only reset removes
it);
(3) scoped — the two resolutions lie in one and the same scope
(`ReachesInScope`), arbitrarily separated by other resolutions and
registrations, with the key kept out of the singleton map (the spec's one
category per key invariant), so the scoped lifecycle governs both calls. -/
theorem scoped_singleton_identity :
    (∀ (fuel1 fuel2 ty : Nat) (name : String) (st st1 st2 st3 : ResState)
      (h1 h2 hS : Holder),
      find? (ty, name) st.singletons = some hS →
      by_name fuel1 ty name st = some (st1, .ok h1) →
      Reaches st1 st2 →
      by_name fuel2 ty name st2 = some (st3, .ok h2) →
      h1 = h2) ∧
    (∀ (st st' : ResState) (k : Key) (hS : Holder),
      find? k st.singletons = some hS → Reaches st st' →
      find? k st'.singletons = some hS) ∧
    (∀ (fuel1 fuel2 ty : Nat) (name : String) (st st1 st2 st3 : ResState)
      (h1 h2 : Holder),
      find? (ty, name) st.singletons = none →
      (find? (ty, name) st.scopeFactories).isSome →
      by_name fuel1 ty name st = some (st1, .ok h1) →
      ReachesInScope st1 st2 →
      find? (ty, name) st2.singletons = none →
      by_name fuel2 ty name st2 = some (st3, .ok h2) →
      h1 = h2) := by
  refine ⟨fun fuel1 fuel2 ty name st st1 st2 st3 h1 h2 hS hsing r1 hreach r2 => ?_,
    fun st st' k hS hf hreach => reaches_singleton_persists st st' hreach k hS hf,
    fun fuel1 fuel2 ty name st st1 st2 st3 h1 h2 hs hsf r1 hreach hnone2 r2 => ?_⟩
  · have e1 := by_name_ok_singleton _ _ _ _ _ _ _ hsing r1
    have h1sing : find? (ty, name) st1.singletons = some hS := by
      rw [(by_name_evolves _ _ _ _ _ _ r1).1]
      exact hsing
    have h2sing : find? (ty, name) st2.singletons = some hS :=
      reaches_singleton_persists _ _ hreach _ _ h1sing
    have e2 := by_name_ok_singleton _ _ _ _ _ _ _ h2sing r2
    rw [e1, e2]
  · have hp := by_name_ok_scopedPath _ _ _ _ _ _ hs hsf r1
    have hkeep : find? (ty, name) st2.scopedInstances = some h1 :=
      reachesInScope_scoped_persists _ _ hreach _ _ hp.2
    exact (by_name_ok_scoped _ _ _ _ _ _ _ hnone2 hkeep r2).symm

theorem scoped_singleton_identity_witness :
    (⟨3, 0⟩ : Holder) = ⟨3, 0⟩ ∧ (⟨0, 0⟩ : Holder) = ⟨0, 0⟩ :=
  ⟨scoped_singleton_identity.1 1 1 0 ""
      ⟨[((0, ""), ⟨3, 0⟩)], [], [], [((5, "x"), ⟨9, 5⟩)], some [], 10⟩
      ⟨[((0, ""), ⟨3, 0⟩)], [], [], [((5, "x"), ⟨9, 5⟩)], some [], 10⟩
      ⟨[((0, ""), ⟨3, 0⟩)], [], [((8, "t"), ⟨[], 8⟩)], [], some [], 10⟩
      ⟨[((0, ""), ⟨3, 0⟩)], [], [((8, "t"), ⟨[], 8⟩)], [], some [], 10⟩
      ⟨3, 0⟩ ⟨3, 0⟩ ⟨3, 0⟩ (by decide) (by decide)
      (Reaches.newScope
        (Reaches.registerTransient 8 "t" [] (by decide) (Reaches.refl _)))
      (by decide),
    scoped_singleton_identity.2.2 1 1 0 ""
      ⟨[], [((0, ""), ⟨[], 0⟩)], [], [], some [], 0⟩
      ⟨[], [((0, ""), ⟨[], 0⟩)], [], [((0, ""), ⟨0, 0⟩)], some [], 1⟩
      ⟨[], [((0, ""), ⟨[], 0⟩)], [((8, "t"), ⟨[], 8⟩)], [((0, ""), ⟨0, 0⟩)], some [], 1⟩
      ⟨[], [((0, ""), ⟨[], 0⟩)], [((8, "t"), ⟨[], 8⟩)], [((0, ""), ⟨0, 0⟩)], some [], 1⟩
      ⟨0, 0⟩ ⟨0, 0⟩ (by decide) (by decide) (by decide)
      (ReachesInScope.registerTransient 8 "t" [] (by decide) (ReachesInScope.refl _))
      (by decide) (by decide)⟩


/-- C7.  For a key resolvable only through the transient registry, every pair
of consecutive successful resolutions returns holders of strictly increasing
(hence distinct) allocation identity, and the transient path caches nothing
under the key; and in the spec's concrete scenario — one transient
registration whose constructor takes the next value of the global counter as
its id, resolved twice inside one scope — the two ids differ (`0` and `1`) and
the counter finishes at `2`. -/
theorem transient_always_fresh (fuel1 fuel2 ty : Nat) (name : String)
    (st st1 st2 : ResState) (h1 h2 : Holder)
    (hs : find? (ty, name) st.singletons = none)
    (hc : find? (ty, name) st.scopedInstances = none)
    (hsf : find? (ty, name) st.scopeFactories = none)
    (r1 : by_name fuel1 ty name st = some (st1, .ok h1))
    (r2 : by_name fuel2 ty name st1 = some (st2, .ok h2)) :
    (h1 ≠ h2 ∧ h1.id < h2.id ∧
      find? (ty, name) st1.singletons = none ∧
      find? (ty, name) st1.scopedInstances = none) ∧
    (by_name 1 0 "" ⟨[], [], [((0, ""), ⟨[], 0⟩)], [], some [], 0⟩ =
        some (⟨[], [], [((0, ""), ⟨[], 0⟩)], [], some [], 1⟩, .ok ⟨0, 0⟩) ∧
      by_name 1 0 "" ⟨[], [], [((0, ""), ⟨[], 0⟩)], [], some [], 1⟩ =
        some (⟨[], [], [((0, ""), ⟨[], 0⟩)], [], some [], 2⟩, .ok ⟨1, 0⟩) ∧
      (⟨0, 0⟩ : Holder) ≠ ⟨1, 0⟩ ∧
      (⟨[], [], [((0, ""), ⟨[], 0⟩)], [], some [], 2⟩ : ResState).counter = 2) := by
  have t1 := by_name_ok_transient _ _ _ _ _ _ hs hc hsf r1
  have t2 := by_name_ok_transient _ _ _ _ _ _ t1.2.2.1 t1.2.2.2.1 t1.2.2.2.2 r2
  have hlt : h1.id < h2.id := Nat.lt_of_lt_of_le t1.2.1 t2.1
  refine ⟨⟨?_, hlt, t1.2.2.1, t1.2.2.2.1⟩, by decide⟩
  intro hEq
  rw [hEq] at hlt
  exact Nat.lt_irrefl _ hlt

theorem transient_always_fresh_witness :
    (⟨0, 0⟩ : Holder) ≠ ⟨1, 0⟩ :=
  ((transient_always_fresh 1 1 0 "" ⟨[], [], [((0, ""), ⟨[], 0⟩)], [], some [], 0⟩
    ⟨[], [], [((0, ""), ⟨[], 0⟩)], [], some [], 1⟩
    ⟨[], [], [((0, ""), ⟨[], 0⟩)], [], some [], 2⟩
    ⟨0, 0⟩ ⟨1, 0⟩ (by decide) (by decide) (by decide) (by decide) (by decide)).1).1

/-- C8.  Resolving a key registered in no lifecycle category (and absent from
both caches) fails with `ServiceNotFound ty name`, and the post-state has
exactly the same singleton map, scoped cache, both factory registries, and
allocation counter as before the call — no partial state is created; when the
type was not already in flight, even the resolving stack is restored, so the
whole state is unchanged. -/
theorem not_found_no_partial_state (fuel ty : Nat) (name : String) (st : ResState)
    (stk : List Nat) (hstk : st.stack = some stk)
    (h1 : find? (ty, name) st.singletons = none)
    (h2 : find? (ty, name) st.scopedInstances = none)
    (h3 : find? (ty, name) st.scopeFactories = none)
    (h4 : find? (ty, name) st.transientFactories = none) :
    by_name (fuel + 1) ty name st =
      some (popStack { st with stack := some (pushTy ty stk) },
        .error (.serviceNotFound ty name)) ∧
    (popStack { st with stack := some (pushTy ty stk) }).singletons = st.singletons ∧
    (popStack { st with stack := some (pushTy ty stk) }).scopedInstances =
      st.scopedInstances ∧
    (popStack { st with stack := some (pushTy ty stk) }).scopeFactories =
      st.scopeFactories ∧
    (popStack { st with stack := some (pushTy ty stk) }).transientFactories =
      st.transientFactories ∧
    (popStack { st with stack := some (pushTy ty stk) }).counter = st.counter ∧
    (ty ∉ stk → popStack { st with stack := some (pushTy ty stk) } = st) := by
  refine ⟨by_name_not_found fuel ty name st stk hstk h1 h2 h3 h4,
    rfl, rfl, rfl, rfl, rfl, fun hmem => ?_⟩
  obtain ⟨a, b, c, d, e, f⟩ := st
  simp only [ResState.stack] at hstk
  subst hstk
  simp [popStack, pushTy, hmem]

theorem not_found_no_partial_state_witness :
    by_name 1 5 "missing" ⟨[], [], [], [], some [], 0⟩ =
      some (popStack
          { (⟨[], [], [], [], some [], 0⟩ : ResState) with stack := some (pushTy 5 []) },
        .error (.serviceNotFound 5 "missing")) ∧
    ((5 : Nat) ∉ ([] : List Nat) →
      popStack { (⟨[], [], [], [], some [], 0⟩ : ResState) with stack := some (pushTy 5 []) } =
        ⟨[], [], [], [], some [], 0⟩) :=
  ⟨(not_found_no_partial_state 0 5 "missing" ⟨[], [], [], [], some [], 0⟩ []
      rfl rfl rfl rfl rfl).1,
    (not_found_no_partial_state 0 5 "missing" ⟨[], [], [], [], some [], 0⟩ []
      rfl rfl rfl rfl rfl).2.2.2.2.2.2⟩

/-- C9.  With no `RESOLVING_STACK` task-local (no active scope),
`DIScope::by_name` returns the mapped access error (`DiError::FactoryError`,
the spec's `NoActiveScope` class) with the state completely unchanged — i.e.
before any cache or registry lookup, whatever is registered; and
`DIScope::current` outside any active scope likewise returns that error
rather than succeeding or crashing, while inside a scope it returns the
ambient scope. -/
theorem no_active_scope_fails_early (fuel ty : Nat) (name : String) (st : ResState)
    (hstk : st.stack = none) :
    by_name (fuel + 1) ty name st = some (st, .error .factoryError) ∧
    DIScope_current none = .error .factoryError ∧
    ∀ s, DIScope_current (some s) = .ok s := by
  refine ⟨?_, rfl, fun s => rfl⟩
  simp [by_name, hstk]

theorem no_active_scope_fails_early_witness :
    by_name 1 0 "" ⟨[((0, ""), ⟨9, 0⟩)], [], [], [], none, 0⟩ =
      some (⟨[((0, ""), ⟨9, 0⟩)], [], [], [], none, 0⟩, .error .factoryError) :=
  (no_active_scope_fails_early 0 0 "" _ rfl).1

/-- C10.  Unnamed resolution and registration are exactly the empty-name
forms: `DIScope::get` is `by_name("")`, and `register_transient`,
`register_scope`, `register_singleton` register under the empty instance
name. -/
theorem get_is_by_name_empty :
    (∀ fuel ty st, DIScope_get fuel ty st = by_name fuel ty "" st) ∧
    (∀ ty deps st, register_transient ty deps st = register_transient_name ty "" deps st) ∧
    (∀ ty deps st, register_scope ty deps st = register_scope_name ty "" deps st) ∧
    (∀ ty st, register_singleton ty st = register_singleton_name ty "" st) :=
  ⟨fun _ _ _ => rfl, fun _ _ _ => rfl, fun _ _ _ => rfl, fun _ _ => rfl⟩

end RustDi
